import Mathlib

/-!
Verification of the URL-tree construction engine of `packages/router/src/create_url_tree.ts`.

The TypeScript source is shallowly embedded below.  Conventions used throughout:

* `UrlSegment` / `UrlSegmentGroup` / `UrlTree` mirror the value types of `url_tree.ts`
  (that file is not part of the sources; its pieces used here — `squashSegmentGroup`,
  `createRoot`, `shallowEqual` — are modelled from the spec, and are marked as such).
* A segment group's `parent` back-reference is modelled relationally: a position in a
  tree is the path of outlet names from the root, and `parent` is `List.dropLast`.
  Reference equality (`===`) between nodes of one tree is rendered as path equality.
* JavaScript `undefined`/`null` distinctions that the code relies on are modelled with
  `Option` and with the `OutletVal.nullV` constructor.
* Machine numbers are `Int` where the source can produce negative intermediate values
  (position indices), `Nat` elsewhere.
* Code that throws (`RuntimeError`) returns `Except RtError`.
-/

/-- Matrix/query parameter maps are association lists of already-stringified values
(the source coerces every value with a template string at construction time). -/
abbrev ParamsMap := List (String × String)

/-- One slash-delimited path token plus its matrix parameters (`UrlSegment`). -/
structure UrlSegment where
  path : String
  parameters : ParamsMap
deriving Repr, DecidableEq

/-- A chain of segments for one outlet branch, with child groups keyed by outlet name
(`UrlSegmentGroup`).  Children are an association list in JavaScript object insertion
order.  The `parent` pointer of the source is not a field: it is recovered from the
position of a group inside its root (see module docstring). -/
inductive UrlSegmentGroup : Type where
  | mk (segments : List UrlSegment) (children : List (String × UrlSegmentGroup))
deriving Repr

def UrlSegmentGroup.segments : UrlSegmentGroup → List UrlSegment
  | .mk s _ => s

def UrlSegmentGroup.children : UrlSegmentGroup → List (String × UrlSegmentGroup)
  | .mk _ c => c

/-- `segmentGroup.hasChildren()` = `numberOfChildren > 0`. -/
def UrlSegmentGroup.hasChildren (g : UrlSegmentGroup) : Bool :=
  !g.children.isEmpty

/-- `PRIMARY_OUTLET` from `shared.ts`. -/
def primaryOutlet : String := "primary"

/-- A full URL tree: root group, stringified query parameters, optional fragment. -/
structure UrlTree where
  root : UrlSegmentGroup
  queryParams : ParamsMap
  fragment : Option String
deriving Repr

/-- The three error kinds the engine raises (`RuntimeErrorCode`). -/
inductive RtError : Type where
  | rootSegmentMatrixParams
  | misplacedOutletsCommand
  | invalidDoubleDots
deriving Repr, DecidableEq

mutual
/-- A raw navigation command (`commands: any[]`): a path string (numbers are already
coerced to strings in this model), a matrix-parameter object, an `{outlets: ...}`
object, or a `{segmentPath: ...}` object. -/
inductive RawCmd : Type where
  | str (s : String)
  | matrix (params : ParamsMap)
  | outletsCmd (m : List (String × OutletVal))
  | segPath (p : String)

/-- The value attached to one outlet name inside an `{outlets: ...}` command:
`null`, a bare string, or a list of commands. -/
inductive OutletVal : Type where
  | nullV
  | strV (s : String)
  | listV (cmds : List RawCmd)
end

/-- JavaScript truthiness-faithful `isMatrixParams`: a non-null object without a
truthy `outlets` and without a truthy `segmentPath` key.  Note that
`{segmentPath: ""}` has a falsy `segmentPath` and therefore counts as matrix
parameters in the source. -/
def isMatrixParams : RawCmd → Bool
  | .matrix _ => true
  | .segPath p => p = ""
  | _ => false

/-- `isCommandWithOutlets`: the command has a truthy `outlets` key (an object,
even an empty one, is truthy). -/
def isCommandWithOutlets : RawCmd → Bool
  | .outletsCmd _ => true
  | _ => false

/-- JavaScript template-string coercion of a command used by `prefixedWith` and
`createNewSegmentGroup`; objects stringify to "[object Object]". -/
def stringifyCmd : RawCmd → String
  | .str s => s
  | .matrix _ => "[object Object]"
  | .outletsCmd _ => "[object Object]"
  | .segPath _ => "[object Object]"

/-- The parameter-map view of a command when `compare` receives it as the `params`
argument (`typeof next === 'object' && next.outlets === undefined` in
`prefixedWith`): a matrix object is its own map, a `{segmentPath: p}` object is the
one-entry map with key `segmentPath`. -/
def objParamsOf : Option RawCmd → Option ParamsMap
  | some (.matrix ps) => some ps
  | some (.segPath p) => some [("segmentPath", p)]
  | _ => none

/-- First-match lookup in an association list (JavaScript property access). -/
def lookupParam (ps : ParamsMap) (k : String) : Option String :=
  (ps.find? (fun p => p.1 == k)).map (·.2)

/-- Modelled from the spec: `shallowEqual` of `utils/collection.ts` is not in the
sources; per the spec's matching rule it is "a shallow key/value comparison
(same key set, same stringified values, order irrelevant)". -/
def shallowEqualParams (a b : ParamsMap) : Bool :=
  a.all (fun p => lookupParam b p.1 == some p.2) &&
  b.all (fun p => lookupParam a p.1 == some p.2)

/-- `compare(path, params, segment)` of the source. -/
def compareSeg (path : String) (params : ParamsMap) (segment : UrlSegment) : Bool :=
  path == segment.path && shallowEqualParams params segment.parameters

/-- JavaScript `arr.slice(0, n)` for a possibly negative `n`. -/
def sliceTo (l : List UrlSegment) (n : Int) : List UrlSegment :=
  l.take (if n < 0 then ((l.length : Int) + n).toNat else n.toNat)

/-- JavaScript `arr.slice(n)` for a possibly negative `n`. -/
def dropFrom (l : List UrlSegment) (n : Int) : List UrlSegment :=
  l.drop (if n < 0 then ((l.length : Int) + n).toNat else n.toNat)

/-- `segments[i]` for an `Int` index.  An out-of-range access is `undefined` in
JavaScript and every use site would throw on `.path`; those uses are unreachable
for the indices produced by position resolution, and the model returns an empty
segment there. -/
def getSegAt (segs : List UrlSegment) (i : Int) : UrlSegment :=
  if i < 0 then ⟨"", []⟩ else (segs.get? i.toNat).getD ⟨"", []⟩

/-- First-match child lookup: `segmentGroup.children[outlet]`. -/
def lookupChild (g : UrlSegmentGroup) (o : String) : Option UrlSegmentGroup :=
  (g.children.find? (fun p => p.1 == o)).map (·.2)

/-- Child group at a path of outlet names below a root. -/
def groupAt : UrlSegmentGroup → List String → Option UrlSegmentGroup
  | g, [] => some g
  | g, o :: rest =>
    match lookupChild g o with
    | some c => groupAt c rest
    | none => none

/-! ## Navigation normalizer (`computeNavigation`, `Navigation`) -/

/-- A normalized navigation intent (`class Navigation`), after validation. -/
structure Navigation where
  isAbsolute : Bool
  numberOfDoubleDots : Nat
  commands : List RawCmd

/-- `isMatrixParams(commands[0])`; `commands[0]` of an empty list is `undefined`,
which is not matrix params. -/
def matrixFirst (cmds : List RawCmd) : Bool :=
  match cmds.head? with
  | some c => isMatrixParams c
  | none => false

/-- There is an outlets command that is not the last command.  The source compares
the first outlets command found with `last(commands)` by reference; normalization
creates every outlets object fresh, so reference inequality is position
inequality. -/
def misplacedOutlets (cmds : List RawCmd) : Bool :=
  match cmds.findIdx? isCommandWithOutlets with
  | some i => decide (i ≠ cmds.length - 1)
  | none => false

/-- The validating constructor of `class Navigation`: rejects an absolute
navigation whose first command is a matrix-parameter object, then rejects an
outlets command that is not last. -/
def mkNavigation (isAbsolute : Bool) (dd : Nat) (commands : List RawCmd) :
    Except RtError Navigation :=
  if isAbsolute && matrixFirst commands then .error .rootSegmentMatrixParams
  else if misplacedOutlets commands then .error .misplacedOutletsCommand
  else .ok ⟨isAbsolute, dd, commands⟩

/-- `Navigation.toRoot()`: absolute, single command, and that command is loosely
equal to the root marker "/". -/
def Navigation.toRoot (n : Navigation) : Bool :=
  n.isAbsolute && n.commands.length == 1 &&
    (match n.commands with
     | [.str s] => s == "/"
     | _ => false)

/-- JavaScript `str.split('/')`: splitting on the single-character separator,
rendered over the character list so that it evaluates definitionally (it agrees
with JavaScript `split` for a one-character separator, including `"" -> [""]`
and `"/" -> ["", ""]`). -/
def jsSplitSlash (s : String) : List String :=
  (s.data.splitOn '/').map (fun cs => String.mk cs)

/-- Normalization of an outlet value inside an `{outlets: ...}` command
(`typeof commands === 'string' ? commands.split('/') : commands`). -/
def normOutletVal : OutletVal → OutletVal
  | .strV s => .listV ((jsSplitSlash s).map RawCmd.str)
  | v => v

/-- Processing of a command at index > 0 (and of a non-string command at index 0):
an `{outlets}` object has its string outlet values split, a `{segmentPath}` object
with a truthy (non-empty) path is replaced by that string, everything else is
passed through unchanged. -/
def normalizeTailCmd : RawCmd → RawCmd
  | .outletsCmd m => .outletsCmd (m.map (fun ov => (ov.1, normOutletVal ov.2)))
  | .segPath p => if p ≠ "" then .str p else .segPath p
  | c => c

/-- Classification of the sub-tokens of the first string command after splitting on
"/" (the `forEach` inside `computeNavigation`), carrying the sub-token index:
returns (isAbsolute, numberOfDoubleDots, pushed commands). -/
def classifyParts : List String → Nat → Bool × Nat × List RawCmd
  | [], _ => (false, 0, [])
  | p :: rest, i =>
    let (abs, dd, toks) := classifyParts rest (i + 1)
    if i = 0 && p == "." then (abs, dd, toks)
    else if i = 0 && p == "" then (true, dd, toks)
    else if p == ".." then (abs, dd + 1, toks)
    else if p != "" then (abs, dd, .str p :: toks)
    else (abs, dd, toks)

/-- The reduce of `computeNavigation`: only the first command, when it is a plain
string, is split on "/" and classified; every other command is passed through
`normalizeTailCmd` (object commands take the object branches even at index 0). -/
def computeNavigationCore (commands : List RawCmd) : Bool × Nat × List RawCmd :=
  match commands with
  | [] => (false, 0, [])
  | first :: rest =>
    let tailNorm := rest.map normalizeTailCmd
    match first with
    | .str s =>
      let (abs, dd, toks) := classifyParts (jsSplitSlash s) 0
      (abs, dd, toks ++ tailNorm)
    | c => (false, 0, normalizeTailCmd c :: tailNorm)

/-- The special-case guard of `computeNavigation`:
`typeof commands[0] === 'string' && commands.length === 1 && commands[0] === '/'`. -/
def isRootCommandList : List RawCmd → Bool
  | [.str s] => s == "/"
  | _ => false

/-- `computeNavigation`: the single-command root marker is special-cased, everything
else goes through the reduce and the validating constructor. -/
def computeNavigation (commands : List RawCmd) : Except RtError Navigation :=
  if isRootCommandList commands then mkNavigation true 0 commands
  else
    let r := computeNavigationCore commands
    mkNavigation r.1 r.2.1 r.2.2

/-! ## Position resolver -/

/-- Where the new commands are grafted: the anchor group is identified by its path
of outlet names from the root (the source holds the group itself plus `parent`
pointers). -/
structure Position where
  path : List String
  processChildren : Bool
  index : Int
deriving Repr

/-- `g.segments.length` for the group at `path` (paths reaching this helper are
valid by construction; the default is never hit on those). -/
def segmentsLengthAt (root : UrlSegmentGroup) (p : List String) : Nat :=
  ((groupAt root p).getD (.mk [] [])).segments.length

/-- `createPositionApplyingDoubleDots`: while `dd > ci`, consume `ci` from `dd`,
move to the parent (raising `InvalidDoubleDots` when there is none), and reset
`ci` to the parent's segment count; terminate with index `ci - dd`. -/
def createPositionApplyingDoubleDots (root : UrlSegmentGroup) (path : List String)
    (ci dd : Int) : Except RtError Position :=
  if ci < dd then
    match path with
    | [] => .error .invalidDoubleDots
    | a :: as =>
      createPositionApplyingDoubleDots root ((a :: as).dropLast)
        (segmentsLengthAt root ((a :: as).dropLast)) (dd - ci)
  else .ok ⟨path, false, ci - dd⟩
termination_by path.length
decreasing_by
  simp [List.length_dropLast]

/-- `findStartingPositionForTargetGroup`.  The `!target` fallback (NaN index, kept
in the source only for incorrectly mocked tests) is not modelled: anchors are given
as valid paths. -/
def findStartingPositionForTargetGroup (nav : Navigation) (root : UrlSegmentGroup)
    (anchorPath : List String) : Except RtError Position :=
  if nav.isAbsolute then .ok ⟨[], true, 0⟩
  else if anchorPath = [] then .ok ⟨[], true, 0⟩
  else
    let target := (groupAt root anchorPath).getD (.mk [] [])
    let modifier : Int := if matrixFirst nav.commands then 0 else 1
    createPositionApplyingDoubleDots root anchorPath
      ((target.segments.length : Int) - 1 + modifier) (nav.numberOfDoubleDots : Int)

/-! ## Segment-group updater -/

/-- `getOutlets`: a leading outlets command supplies the per-outlet map directly,
otherwise all commands target the primary outlet. -/
def getOutlets (commands : List RawCmd) : List (String × OutletVal) :=
  match commands.head? with
  | some (.outletsCmd m) => m
  | _ => [(primaryOutlet, .listV commands)]

/-- The outlet name is a key of the per-outlet map
(`outlets[childOutlet] === undefined` is its negation; a `null` value is a
present key). -/
def outletDefined (outlets : List (String × OutletVal)) (o : String) : Bool :=
  (outlets.find? (fun p => p.1 == o)).isSome

/-- Result record of `prefixedWith`. -/
structure MatchResult where
  isMatch : Bool
  pathIndex : Int
  commandIndex : Nat
deriving Repr, DecidableEq

/-- `{match: false, pathIndex: 0, commandIndex: 0}`. -/
def noMatchResult : MatchResult := ⟨false, 0, 0⟩

/-- The while loop of `prefixedWith`, walking segments from `pathIdx` and commands
from `cmdIdx` in lockstep.  The dead `currentPathIndex > 0 && curr === undefined`
break of the source is omitted: `curr` is a template string and never undefined. -/
def prefixedWithGo (segs : List UrlSegment) (cmds : List RawCmd) (pathIdx : Int)
    (cmdIdx : Nat) : MatchResult :=
  if pathIdx < (segs.length : Int) then
    if cmdIdx ≥ cmds.length then noMatchResult
    else
      let path := getSegAt segs pathIdx
      -- `commands[currentCommandIndex]`; in range under the two guards
      let command := (cmds.get? cmdIdx).getD (.str "")
      if isCommandWithOutlets command then ⟨true, pathIdx, cmdIdx⟩
      else
        let curr := stringifyCmd command
        let next : Option RawCmd :=
          if cmdIdx < cmds.length - 1 then cmds.get? (cmdIdx + 1) else none
        match objParamsOf next with
        | some ps =>
          if curr ≠ "" then
            if compareSeg curr ps path then prefixedWithGo segs cmds (pathIdx + 1) (cmdIdx + 2)
            else noMatchResult
          else
            if compareSeg curr [] path then prefixedWithGo segs cmds (pathIdx + 1) (cmdIdx + 1)
            else noMatchResult
        | none =>
          if compareSeg curr [] path then prefixedWithGo segs cmds (pathIdx + 1) (cmdIdx + 1)
          else noMatchResult
  else ⟨true, pathIdx, cmdIdx⟩
termination_by ((segs.length : Int) - pathIdx).toNat
decreasing_by
  all_goals omega

/-- `prefixedWith(segmentGroup, startIndex, commands)`. -/
def prefixedWith (segmentGroup : UrlSegmentGroup) (startIndex : Int)
    (commands : List RawCmd) : MatchResult :=
  prefixedWithGo segmentGroup.segments commands startIndex 0

/-- `stringify(params)` applied to a matrix-like command (values are already
strings in this model; `{segmentPath: ""}` stringifies to its one-entry map). -/
def matrixParamsView : RawCmd → ParamsMap
  | .matrix ps => ps
  | .segPath p => [("segmentPath", p)]
  | _ => []

mutual
/-- The while loop of `createNewSegmentGroup`: `first` tracks `i === 0`, `paths`
the accumulated segment list. -/
def createNewSegmentGroupGo (sg : UrlSegmentGroup) (startIndex : Int)
    (paths : List UrlSegment) (first : Bool) : List RawCmd → UrlSegmentGroup
  | [] => .mk paths []
  | command :: rest =>
    match command with
    | .outletsCmd m => .mk paths (createNewSegmentChildren m)
    | _ =>
      if first && isMatrixParams command then
        -- a leading matrix object reuses the path of segments[startIndex]
        let p := getSegAt sg.segments startIndex
        createNewSegmentGroupGo sg startIndex
          (paths ++ [⟨p.path, matrixParamsView command⟩]) false rest
      else
        let curr := stringifyCmd command
        match rest with
        | next :: rest2 =>
          if curr ≠ "" && isMatrixParams next then
            createNewSegmentGroupGo sg startIndex
              (paths ++ [⟨curr, matrixParamsView next⟩]) false rest2
          else
            createNewSegmentGroupGo sg startIndex (paths ++ [⟨curr, []⟩]) false (next :: rest2)
        | [] =>
          createNewSegmentGroupGo sg startIndex (paths ++ [⟨curr, []⟩]) false []
termination_by cmds => sizeOf cmds
decreasing_by all_goals (simp_wf <;> omega)

/-- `createNewSegmentChildren`: builds the per-outlet children of a trailing
outlets command; a `null` value is skipped, a string value is wrapped in a
one-element list (inlined here: a single string command always yields the
one-segment group with empty parameters). -/
def createNewSegmentChildren : List (String × OutletVal) →
    List (String × UrlSegmentGroup)
  | [] => []
  | (o, v) :: rest =>
    match v with
    | .nullV => createNewSegmentChildren rest
    | .strV s => (o, .mk [⟨s, []⟩] []) :: createNewSegmentChildren rest
    | .listV cmds =>
      (o, createNewSegmentGroupGo (.mk [] []) 0 [] true cmds) :: createNewSegmentChildren rest
termination_by l => sizeOf l
decreasing_by all_goals (simp_wf <;> omega)
end


/-- `createNewSegmentGroup(segmentGroup, startIndex, commands)`: keep the segments
before `startIndex` and build a fresh chain from the commands. -/
def createNewSegmentGroup (segmentGroup : UrlSegmentGroup) (startIndex : Int)
    (commands : List RawCmd) : UrlSegmentGroup :=
  createNewSegmentGroupGo segmentGroup startIndex
    (sliceTo segmentGroup.segments startIndex) true commands

-- A computable size of commands and groups, used only to pick fuel for the
-- wrappers below (`sizeOf` of a nested inductive has no executable code).
mutual
def weightCmd : RawCmd → Nat
  | .str _ => 1
  | .matrix _ => 1
  | .segPath _ => 1
  | .outletsCmd m => 1 + weightOutlets m

def weightOutlets : List (String × OutletVal) → Nat
  | [] => 0
  | (_, v) :: rest => 1 + weightVal v + weightOutlets rest

def weightVal : OutletVal → Nat
  | .nullV => 0
  | .strV _ => 1
  | .listV cmds => 1 + weightCmds cmds

def weightCmds : List RawCmd → Nat
  | [] => 0
  | c :: rest => 1 + weightCmd c + weightCmds rest
end

mutual
def weightGroup : UrlSegmentGroup → Nat
  | .mk segs ch => 1 + segs.length + weightChildren ch

def weightChildren : List (String × UrlSegmentGroup) → Nat
  | [] => 0
  | (_, c) :: rest => 1 + weightGroup c + weightChildren rest
end

mutual
/-- Fuel-indexed rendering of the mutually recursive pair
`updateSegmentGroup`/`updateSegmentGroupChildren`.  The source's recursion
terminates only by a measure that decreases across call cycles (commands, then
group), which Lean's per-call checker cannot use directly; the fuel of the
wrappers below is generous enough for every use in this development, and no
theorem depends on the out-of-fuel value. -/
def updateSegmentGroupF : Nat → Option UrlSegmentGroup → Int → List RawCmd →
    UrlSegmentGroup
  | 0, _, _, _ => .mk [] []
  | fuel + 1, sgOpt, startIndex, commands =>
    -- `if (!segmentGroup) segmentGroup = new UrlSegmentGroup([], {})`
    let segmentGroup := sgOpt.getD (.mk [] [])
    if segmentGroup.segments = [] && segmentGroup.hasChildren then
      updateSegmentGroupChildrenF fuel segmentGroup startIndex commands
    else
      let m := prefixedWith segmentGroup startIndex commands
      let slicedCommands := commands.drop m.commandIndex
      if m.isMatch && m.pathIndex < (segmentGroup.segments.length : Int) then
        let g : UrlSegmentGroup :=
          .mk (sliceTo segmentGroup.segments m.pathIndex)
            [(primaryOutlet, .mk (dropFrom segmentGroup.segments m.pathIndex)
              segmentGroup.children)]
        updateSegmentGroupChildrenF fuel g 0 slicedCommands
      else if m.isMatch && slicedCommands.isEmpty then
        .mk segmentGroup.segments []
      else if m.isMatch && !segmentGroup.hasChildren then
        createNewSegmentGroup segmentGroup startIndex commands
      else if m.isMatch then
        updateSegmentGroupChildrenF fuel segmentGroup 0 slicedCommands
      else
        createNewSegmentGroup segmentGroup startIndex commands
termination_by fuel _ _ _ => (fuel, 0, 0)

/-- Fuel-indexed `updateSegmentGroupChildren`: empty commands strip the children;
otherwise each outlet of the new per-outlet map with a non-null value is updated
recursively, and existing outlets that the map does not mention survive as-is. -/
def updateSegmentGroupChildrenF : Nat → UrlSegmentGroup → Int → List RawCmd →
    UrlSegmentGroup
  | 0, _, _, _ => .mk [] []
  | fuel + 1, segmentGroup, startIndex, commands =>
    if commands.isEmpty then .mk segmentGroup.segments []
    else
      let outlets := getOutlets commands
      let processed := processOutletsF fuel segmentGroup startIndex outlets
      let untouched :=
        segmentGroup.children.filter (fun oc => !outletDefined outlets oc.1)
      .mk segmentGroup.segments (processed ++ untouched)
termination_by fuel _ _ _ => (fuel, 0, 0)

/-- The first `forEach` of `updateSegmentGroupChildren`: a string value is wrapped
in a one-element list (without splitting), a null value removes the outlet, any
other value updates the existing child (or an absent one). -/
def processOutletsF (fuel : Nat) (segmentGroup : UrlSegmentGroup)
    (startIndex : Int) : List (String × OutletVal) → List (String × UrlSegmentGroup)
  | [] => []
  | (o, v) :: rest =>
    match v with
    | .nullV => processOutletsF fuel segmentGroup startIndex rest
    | .strV s =>
      (o, updateSegmentGroupF fuel (lookupChild segmentGroup o) startIndex [.str s]) ::
        processOutletsF fuel segmentGroup startIndex rest
    | .listV cmds =>
      (o, updateSegmentGroupF fuel (lookupChild segmentGroup o) startIndex cmds) ::
        processOutletsF fuel segmentGroup startIndex rest
termination_by l => (fuel, 1, l.length)
end

/-- `updateSegmentGroup` at a fuel that is never exhausted on the inputs this
development evaluates. -/
def updateSegmentGroup (sgOpt : Option UrlSegmentGroup) (startIndex : Int)
    (commands : List RawCmd) : UrlSegmentGroup :=
  updateSegmentGroupF
    (((sgOpt.map weightGroup).getD 0 + weightCmds commands + 2) *
      (weightCmds commands + 2))
    sgOpt startIndex commands

/-- `updateSegmentGroupChildren` at a fuel that is never exhausted on the inputs
this development evaluates. -/
def updateSegmentGroupChildren (segmentGroup : UrlSegmentGroup) (startIndex : Int)
    (commands : List RawCmd) : UrlSegmentGroup :=
  updateSegmentGroupChildrenF
    ((weightGroup segmentGroup + weightCmds commands + 2) * (weightCmds commands + 2))
    segmentGroup startIndex commands

/-! ## Tree assembler -/

/-- Modelled from the spec: the collapsing step of squashing — a group with an
empty segment list and exactly one outlet child becomes that child. -/
def squashCollapse (segs : List UrlSegment) (ch : List (String × UrlSegmentGroup)) :
    UrlSegmentGroup :=
  match segs, ch with
  | [], [(_, c)] => c
  | segs, ch => .mk segs ch

mutual
/-- Modelled from the spec: squashing of a non-root group (`squashSegmentGroup` of
`url_tree.ts` is not in the sources) — "recursively collapse any non-root group
that has an empty segment list and exactly one outlet child into that child". -/
def squashNonRoot : UrlSegmentGroup → UrlSegmentGroup
  | .mk segs children => squashCollapse segs (squashChildren children)

/-- Modelled from the spec: squashing applied to each child of a group. -/
def squashChildren : List (String × UrlSegmentGroup) → List (String × UrlSegmentGroup)
  | [] => []
  | (o, c) :: rest => (o, squashNonRoot c) :: squashChildren rest
end

/-- Modelled from the spec: squashing of the whole root candidate — the true root
itself is exempt ("except at the true root"), its descendants are squashed. -/
def squashSegmentGroup (g : UrlSegmentGroup) : UrlSegmentGroup :=
  .mk g.segments (squashChildren g.children)

/-- `replaceSegment(current, oldSegment, newSegment)`: the source walks the tree
replacing the reference-equal occurrence of the anchor and rebuilding every
ancestor; with node identity rendered as a path, this replaces the group at the
path, rebuilding the groups along it and keeping siblings. -/
def replaceSegment : UrlSegmentGroup → List String → UrlSegmentGroup → UrlSegmentGroup
  | _, [], newSegment => newSegment
  | current, o :: rest, newSegment =>
    .mk current.segments
      (current.children.map (fun oc =>
        if oc.1 = o then (oc.1, replaceSegment oc.2 rest newSegment) else oc))

/-- `tree(oldRoot, oldSegmentGroup, newSegmentGroup, queryParams, fragment)`:
substitute the new subtree for the anchor (identified by `oldPath`;
`oldRoot === oldSegmentGroup` is `oldPath = []`), squash, and attach query
parameters and fragment.  Query-parameter values are already stringified in this
model, so the `forEach` copy is the identity. -/
def tree (oldRoot : UrlSegmentGroup) (oldPath : List String)
    (newSegmentGroup : UrlSegmentGroup) (queryParams : ParamsMap)
    (fragment : Option String) : UrlTree :=
  let rootCandidate :=
    if oldPath = [] then newSegmentGroup
    else replaceSegment oldRoot oldPath newSegmentGroup
  ⟨squashSegmentGroup rootCandidate, queryParams, fragment⟩

/-! ## Entry point -/

/-- `createUrlTreeFromSegmentGroup(relativeTo, commands, queryParams, fragment)`:
the anchor is the group at `anchorPath` below `root` (the source walks `parent`
pointers up to find `root`; here the root and the path are given directly). -/
def createUrlTreeFromSegmentGroup (root : UrlSegmentGroup) (anchorPath : List String)
    (commands : List RawCmd) (queryParams : ParamsMap) (fragment : Option String) :
    Except RtError UrlTree :=
  if commands.isEmpty then .ok (tree root [] root queryParams fragment)
  else
    match computeNavigation commands with
    | .error e => .error e
    | .ok nav =>
      if nav.toRoot then .ok (tree root [] (.mk [] []) queryParams fragment)
      else
        match findStartingPositionForTargetGroup nav root anchorPath with
        | .error e => .error e
        | .ok position =>
          let segmentGroup := (groupAt root position.path).getD (.mk [] [])
          let newSegmentGroup :=
            if position.processChildren then
              updateSegmentGroupChildren segmentGroup position.index nav.commands
            else
              updateSegmentGroup (some segmentGroup) position.index nav.commands
          .ok (tree root position.path newSegmentGroup queryParams fragment)

/-! ## Derived notions used by the verified properties -/

/-- The result of a position resolution step is a success. -/
def resultOk : Except RtError Position → Bool
  | .ok _ => true
  | .error _ => false

/-- Total number of segments of the proper ancestors of the group at `path`
(the available double-dot budget above the local index). -/
def ancestorSumN (root : UrlSegmentGroup) : List String → Nat
  | [] => 0
  | a :: as =>
    ancestorSumN root ((a :: as).dropLast) + segmentsLengthAt root ((a :: as).dropLast)
termination_by path => path.length
decreasing_by
  simp [List.length_dropLast]

mutual
/-- No group in this subtree (including its top) has an empty segment list together
with exactly one outlet child. -/
def noCollapsible : UrlSegmentGroup → Bool
  | .mk segs children =>
    (!(decide (segs = []) && decide (children.length = 1))) && noCollapsibleChildren children

def noCollapsibleChildren : List (String × UrlSegmentGroup) → Bool
  | [] => true
  | (_, c) :: rest => noCollapsible c && noCollapsibleChildren rest
end

/-- The squashing invariant of a whole tree: no segment group other than the true
root has an empty segment list together with exactly one outlet child. -/
def isSquashedRoot (g : UrlSegmentGroup) : Bool :=
  noCollapsibleChildren g.children

/-! ## Basic lemmas -/

@[simp]
theorem UrlSegmentGroup.segments_mk (s : List UrlSegment)
    (c : List (String × UrlSegmentGroup)) : (UrlSegmentGroup.mk s c).segments = s := rfl

@[simp]
theorem UrlSegmentGroup.children_mk (s : List UrlSegment)
    (c : List (String × UrlSegmentGroup)) : (UrlSegmentGroup.mk s c).children = c := rfl

theorem updateFuel_succ (a b : Nat) : ∃ k, (a + b + 2) * (b + 2) = k + 1 := by
  have hpos : 0 < (a + b + 2) * (b + 2) := Nat.mul_pos (by omega) (by omega)
  exact ⟨(a + b + 2) * (b + 2) - 1, by omega⟩

theorem updateSegmentGroupChildrenF_succ (fuel : Nat) (sg : UrlSegmentGroup)
    (i : Int) (cmds : List RawCmd) :
    updateSegmentGroupChildrenF (fuel + 1) sg i cmds =
      if cmds.isEmpty then .mk sg.segments []
      else
        .mk sg.segments
          (processOutletsF fuel sg i (getOutlets cmds) ++
            sg.children.filter (fun oc => !outletDefined (getOutlets cmds) oc.1)) := by
  rw [updateSegmentGroupChildrenF]

/-- One-step unfolding of the `updateSegmentGroupChildren` wrapper (the wrapper
fuel is positive, so the first level always evaluates). -/
theorem updateSegmentGroupChildren_unfold (sg : UrlSegmentGroup) (i : Int)
    (cmds : List RawCmd) :
    ∃ fuel, updateSegmentGroupChildren sg i cmds =
      (if cmds.isEmpty then .mk sg.segments []
       else
         .mk sg.segments
           (processOutletsF fuel sg i (getOutlets cmds) ++
             sg.children.filter (fun oc => !outletDefined (getOutlets cmds) oc.1))) := by
  obtain ⟨k, hk⟩ := updateFuel_succ (weightGroup sg) (weightCmds cmds)
  refine ⟨k, ?_⟩
  rw [updateSegmentGroupChildren, hk, updateSegmentGroupChildrenF_succ]

/-- C10: outlet-children processing never changes the group's own segment chain,
and with an empty command list the children are removed entirely. -/
theorem updateSegmentGroupChildren_frame :
    ∀ (sg : UrlSegmentGroup) (i : Int) (cmds : List RawCmd),
      (updateSegmentGroupChildren sg i cmds).segments = sg.segments ∧
      (updateSegmentGroupChildren sg i []).children = [] := by
  intro sg i cmds
  constructor
  · obtain ⟨fuel, hf⟩ := updateSegmentGroupChildren_unfold sg i cmds
    rw [hf]
    split <;> simp
  · obtain ⟨fuel, hf⟩ := updateSegmentGroupChildren_unfold sg i []
    rw [hf]
    simp

/-- C9: absolute navigation is anchor-independent — for two anchor paths in the
same tree (same root), an absolute command list yields the same tree. -/
theorem absolute_navigation_anchor_independent
    (root : UrlSegmentGroup) (pathA pathB : List String) (cmds : List RawCmd)
    (qp : ParamsMap) (frag : Option String) (nav : Navigation)
    (hnav : computeNavigation cmds = .ok nav) (habs : nav.isAbsolute = true) :
    createUrlTreeFromSegmentGroup root pathA cmds qp frag =
      createUrlTreeFromSegmentGroup root pathB cmds qp frag := by
  unfold createUrlTreeFromSegmentGroup
  by_cases hempty : cmds.isEmpty
  · simp [hempty]
  · simp only [hempty, if_false, Bool.false_eq_true]
    rw [hnav]
    by_cases hroot : nav.toRoot
    · simp [hroot]
    · simp only [hroot, if_false, Bool.false_eq_true]
      unfold findStartingPositionForTargetGroup
      simp [habs]

/-- C9 witness: an absolute navigation from two different anchors of one tree. -/
theorem absolute_navigation_anchor_independent_witness :
    createUrlTreeFromSegmentGroup
        (.mk [] [("primary", .mk [⟨"team", []⟩] [("primary", .mk [⟨"11", []⟩] [])])])
        ["primary"] [.str "/"] [] none =
      createUrlTreeFromSegmentGroup
        (.mk [] [("primary", .mk [⟨"team", []⟩] [("primary", .mk [⟨"11", []⟩] [])])])
        ["primary", "primary"] [.str "/"] [] none :=
  absolute_navigation_anchor_independent _ _ _ _ _ _ ⟨true, 0, [.str "/"]⟩ rfl rfl

/-- C7: a matrix-parameter object as the first command of a relative navigation
attaches its key/values onto the already-existing segment at the resolved
boundary (`segments[startIndex]`) instead of creating or replacing a segment;
in particular, anchor `/team/33` with commands `[{expand: 'true'}]` yields
`/team/33;expand=true`. -/
theorem relative_matrix_params_attach :
    (∀ (sg : UrlSegmentGroup) (i : Int) (ps : ParamsMap),
       createNewSegmentGroup sg i [.matrix ps] =
         .mk (sliceTo sg.segments i ++ [⟨(getSegAt sg.segments i).path, ps⟩]) []) ∧
    createUrlTreeFromSegmentGroup
        (.mk [] [("primary", .mk [⟨"team", []⟩, ⟨"33", []⟩] [])])
        ["primary"] [.matrix [("expand", "true")]] [] none =
      .ok ⟨.mk [] [("primary", .mk [⟨"team", []⟩, ⟨"33", [("expand", "true")]⟩] [])],
        [], none⟩ := by
  constructor
  · intro sg i ps
    simp [createNewSegmentGroup, createNewSegmentGroupGo, isMatrixParams,
      isCommandWithOutlets, matrixParamsView]
  · simp [createUrlTreeFromSegmentGroup, computeNavigation, computeNavigationCore,
      isRootCommandList, mkNavigation, matrixFirst, isMatrixParams, misplacedOutlets,
      normalizeTailCmd, Navigation.toRoot, findStartingPositionForTargetGroup,
      createPositionApplyingDoubleDots, groupAt, lookupChild, segmentsLengthAt,
      updateSegmentGroup, updateSegmentGroupF, updateSegmentGroupChildrenF,
      processOutletsF, prefixedWith, prefixedWithGo, getOutlets, outletDefined,
      getSegAt, sliceTo, dropFrom, compareSeg, shallowEqualParams, lookupParam,
      stringifyCmd, createNewSegmentGroup, createNewSegmentGroupGo,
      createNewSegmentChildren, matrixParamsView, isCommandWithOutlets, objParamsOf,
      tree, replaceSegment, squashSegmentGroup, squashNonRoot, squashChildren,
      squashCollapse, UrlSegmentGroup.segments, UrlSegmentGroup.children,
      UrlSegmentGroup.hasChildren, weightGroup, weightChildren, weightCmds, weightCmd,
      weightOutlets, weightVal, primaryOutlet, noMatchResult]

/-- C3: double-dot consumption — the loop raises `InvalidDoubleDots` exactly when
the budget exceeds the local index plus the total segments of all ancestors
(i.e. it would have to move above a group with no parent); a budget not exceeding
that bound succeeds, and a budget already covered by the local index terminates
immediately at `Position(g, false, ci - dd)`. -/
theorem doubleDots_error_iff_budget_exceeds_depth
    (root : UrlSegmentGroup) (path : List String) (ci dd : Int) :
    (resultOk (createPositionApplyingDoubleDots root path ci dd) = true ↔
      dd ≤ ci + (ancestorSumN root path : Int)) ∧
    (ci + (ancestorSumN root path : Int) < dd →
      createPositionApplyingDoubleDots root path ci dd = .error .invalidDoubleDots) ∧
    (dd ≤ ci →
      createPositionApplyingDoubleDots root path ci dd = .ok ⟨path, false, ci - dd⟩) := by
  rw [createPositionApplyingDoubleDots.eq_def]
  by_cases h : ci < dd
  · rw [if_pos h]
    cases path with
    | nil =>
      rw [ancestorSumN]
      refine ⟨⟨fun hok => ?_, fun hle => ?_⟩, fun _ => rfl,
        fun hle => absurd hle (by omega)⟩
      · simp [resultOk] at hok
      · exfalso
        omega
    | cons a as =>
      have ih := doubleDots_error_iff_budget_exceeds_depth root ((a :: as).dropLast)
        (segmentsLengthAt root ((a :: as).dropLast)) (dd - ci)
      have hsum : ancestorSumN root (a :: as) =
          ancestorSumN root ((a :: as).dropLast) +
            segmentsLengthAt root ((a :: as).dropLast) := by
        rw [ancestorSumN]
      refine ⟨?_, ?_, fun hle => absurd hle (by omega)⟩
      · rw [ih.1, hsum]
        omega
      · intro hlt
        exact ih.2.1 (by rw [hsum] at hlt; omega)
  · rw [if_neg h]
    have hnn : (0 : Int) ≤ (ancestorSumN root path : Int) := Int.ofNat_nonneg _
    exact ⟨by simp [resultOk]; omega, fun hlt => absurd hlt (by omega), fun _ => rfl⟩
termination_by path.length
decreasing_by
  simp [List.length_dropLast]

/-- C3 witness: a budget exactly matching the available depth succeeds (anchor one
level below a root with two segments, local index 1, budget 3 = 1 + 2), and a
terminal step with `dd ≤ ci`. -/
theorem doubleDots_error_iff_budget_exceeds_depth_witness :
    createPositionApplyingDoubleDots
        (.mk [⟨"a", []⟩, ⟨"b", []⟩] [("primary", .mk [⟨"c", []⟩] [])])
        ["primary"] 3 1 = .ok ⟨["primary"], false, 2⟩ :=
  (doubleDots_error_iff_budget_exceeds_depth
    (.mk [⟨"a", []⟩, ⟨"b", []⟩] [("primary", .mk [⟨"c", []⟩] [])])
    ["primary"] 3 1).2.2 (by omega)

/-! ## Lemmas about outlet-children processing -/

theorem processOutletsF_find?_none (fuel : Nat) (sg : UrlSegmentGroup) (i : Int)
    (outs : List (String × OutletVal)) (o : String)
    (h : outletDefined outs o = false) :
    (processOutletsF fuel sg i outs).find? (fun p => p.1 == o) = none := by
  induction outs with
  | nil => simp [processOutletsF]
  | cons kv rest ih =>
    obtain ⟨k, v⟩ := kv
    by_cases hko : (k == o) = true
    · exfalso
      rw [outletDefined, List.find?_cons_of_pos _ (by simpa using hko)] at h
      simp at h
    · rw [outletDefined, List.find?_cons_of_neg _ (by simpa using hko)] at h
      have hrest := ih h
      cases v <;> simp [processOutletsF, hko, hrest]

theorem find?_filter_of_not_defined (outs : List (String × OutletVal))
    (l : List (String × UrlSegmentGroup)) (o : String)
    (h : outletDefined outs o = false) :
    (l.filter (fun oc => !outletDefined outs oc.1)).find? (fun p => p.1 == o) =
      l.find? (fun p => p.1 == o) := by
  induction l with
  | nil => simp
  | cons kv rest ih =>
    obtain ⟨k, c⟩ := kv
    by_cases hko : (k == o) = true
    · have hk : k = o := by simpa using hko
      subst hk
      simp [List.filter_cons, h, hko]
    · by_cases hpred : outletDefined outs k = true
      · simp [List.filter_cons, hpred, hko, ih]
      · simp only [Bool.not_eq_true] at hpred
        simp [List.filter_cons, hpred, hko, ih]

theorem outletDefined_eq_false_of_not_mem (outs : List (String × OutletVal))
    (o : String) (h : o ∉ outs.map Prod.fst) : outletDefined outs o = false := by
  induction outs with
  | nil => simp [outletDefined]
  | cons kv rest ih =>
    obtain ⟨k, v⟩ := kv
    simp only [List.map_cons, List.mem_cons, not_or] at h
    rw [outletDefined, List.find?_cons_of_neg _ (by simpa using Ne.symm h.1)]
    exact ih h.2

theorem processOutletsF_find?_null (fuel : Nat) (sg : UrlSegmentGroup) (i : Int)
    (outs : List (String × OutletVal)) (o : String)
    (hfind : outs.find? (fun p => p.1 == o) = some (o, .nullV))
    (hnodup : (outs.map Prod.fst).Nodup) :
    (processOutletsF fuel sg i outs).find? (fun p => p.1 == o) = none := by
  induction outs with
  | nil => simp at hfind
  | cons kv rest ih =>
    obtain ⟨k, v⟩ := kv
    simp only [List.map_cons, List.nodup_cons] at hnodup
    by_cases hko : (k == o) = true
    · rw [List.find?_cons_of_pos _ (by simpa using hko)] at hfind
      have hk : k = o := by simpa using hko
      have hv : v = .nullV := by
        injection hfind with he
        exact congrArg Prod.snd he
      subst hv hk
      have : outletDefined rest k = false :=
        outletDefined_eq_false_of_not_mem rest k hnodup.1
      simp [processOutletsF, processOutletsF_find?_none fuel sg i rest k this]
    · rw [List.find?_cons_of_neg _ (by simpa using hko)] at hfind
      have hrest := ih hfind hnodup.2
      cases v <;> simp [processOutletsF, hko, hrest]

/-- C2: in outlet-children processing with a non-empty command list, an existing
outlet not mentioned in the per-outlet map survives unchanged, an outlet mapped
to `null` is absent from the result, and for the anchor
`/team/33/(user/11//right:chat)` the commands `[{outlets: {right: null}}]`
yield `/team/33/user/11`. -/
theorem outlet_children_preserve_and_null_removes :
    (∀ (sg : UrlSegmentGroup) (i : Int) (cmds : List RawCmd) (o : String),
        cmds ≠ [] → outletDefined (getOutlets cmds) o = false →
        lookupChild (updateSegmentGroupChildren sg i cmds) o = lookupChild sg o) ∧
    (∀ (sg : UrlSegmentGroup) (i : Int) (cmds : List RawCmd) (o : String),
        cmds ≠ [] →
        (getOutlets cmds).find? (fun p => p.1 == o) = some (o, .nullV) →
        ((getOutlets cmds).map Prod.fst).Nodup →
        lookupChild (updateSegmentGroupChildren sg i cmds) o = none) ∧
    createUrlTreeFromSegmentGroup
        (.mk [] [("primary", .mk [⟨"team", []⟩, ⟨"33", []⟩]
          [("primary", .mk [⟨"user", []⟩, ⟨"11", []⟩] []),
           ("right", .mk [⟨"chat", []⟩] [])])])
        ["primary"] [.outletsCmd [("right", .nullV)]] [] none =
      .ok ⟨.mk [] [("primary", .mk [⟨"team", []⟩, ⟨"33", []⟩]
        [("primary", .mk [⟨"user", []⟩, ⟨"11", []⟩] [])])], [], none⟩ := by
  refine ⟨?_, ?_, ?_⟩
  · intro sg i cmds o hne hdef
    have hempty : cmds.isEmpty = false := by
      cases cmds
      · exact absurd rfl hne
      · rfl
    obtain ⟨fuel, hf⟩ := updateSegmentGroupChildren_unfold sg i cmds
    rw [hf, hempty]
    simp only [Bool.false_eq_true, if_false, lookupChild, UrlSegmentGroup.children_mk,
      List.find?_append]
    rw [processOutletsF_find?_none fuel sg i _ o hdef, Option.none_or,
      find?_filter_of_not_defined _ _ _ hdef]
  · intro sg i cmds o hne hfind hnodup
    have hempty : cmds.isEmpty = false := by
      cases cmds
      · exact absurd rfl hne
      · rfl
    obtain ⟨fuel, hf⟩ := updateSegmentGroupChildren_unfold sg i cmds
    rw [hf, hempty]
    simp only [Bool.false_eq_true, if_false, lookupChild, UrlSegmentGroup.children_mk,
      List.find?_append]
    have hdef : outletDefined (getOutlets cmds) o = true := by
      rw [outletDefined, hfind]
      rfl
    rw [processOutletsF_find?_null fuel sg i _ o hfind hnodup, Option.none_or]
    have : ((sg.children.filter (fun oc => !outletDefined (getOutlets cmds) oc.1)).find?
        (fun p => p.1 == o)) = none := by
      rw [List.find?_eq_none]
      intro x hx hpx
      have hx1 : x.1 = o := by simpa using hpx
      rw [List.mem_filter] at hx
      rw [hx1, hdef] at hx
      simp at hx
    rw [this]
    rfl
  · simp [createUrlTreeFromSegmentGroup, computeNavigation, computeNavigationCore,
      isRootCommandList, mkNavigation, matrixFirst, isMatrixParams, misplacedOutlets,
      normalizeTailCmd, normOutletVal, Navigation.toRoot,
      findStartingPositionForTargetGroup, createPositionApplyingDoubleDots, groupAt,
      lookupChild, segmentsLengthAt, updateSegmentGroup, updateSegmentGroupF,
      updateSegmentGroupChildrenF, processOutletsF, prefixedWith, prefixedWithGo,
      getOutlets, outletDefined, getSegAt, sliceTo, dropFrom, compareSeg,
      shallowEqualParams, lookupParam, stringifyCmd, createNewSegmentGroup,
      createNewSegmentGroupGo, createNewSegmentChildren, matrixParamsView,
      isCommandWithOutlets, objParamsOf, tree, replaceSegment, squashSegmentGroup,
      squashNonRoot, squashChildren, squashCollapse, UrlSegmentGroup.segments,
      UrlSegmentGroup.children, UrlSegmentGroup.hasChildren, weightGroup,
      weightChildren, weightCmds, weightCmd, weightOutlets, weightVal, primaryOutlet,
      noMatchResult]

/-- C2 witness: the untouched `primary` outlet of `/team/33/(user/11//right:chat)`
survives, and a `right: null` mapping removes the `right` outlet. -/
theorem outlet_children_preserve_and_null_removes_witness :
    lookupChild
        (updateSegmentGroupChildren
          (.mk [⟨"team", []⟩, ⟨"33", []⟩]
            [("primary", .mk [⟨"user", []⟩, ⟨"11", []⟩] []),
             ("right", .mk [⟨"chat", []⟩] [])])
          0 [.outletsCmd [("right", .nullV)]]) "primary" =
      some (.mk [⟨"user", []⟩, ⟨"11", []⟩] []) ∧
    lookupChild
        (updateSegmentGroupChildren
          (.mk [⟨"team", []⟩, ⟨"33", []⟩]
            [("primary", .mk [⟨"user", []⟩, ⟨"11", []⟩] []),
             ("right", .mk [⟨"chat", []⟩] [])])
          0 [.outletsCmd [("right", .nullV)]]) "right" = none := by
  constructor
  · rw [outlet_children_preserve_and_null_removes.1 _ _ _ _ (by simp) (by rfl)]
    rfl
  · exact outlet_children_preserve_and_null_removes.2.1 _ _ _ _ (by simp) (by rfl)
      (by decide)

/-! ## Lemmas about squashing -/

theorem squashCollapse_noCollapsible (segs : List UrlSegment)
    (ch : List (String × UrlSegmentGroup)) (hch : noCollapsibleChildren ch = true) :
    noCollapsible (squashCollapse segs ch) = true := by
  match segs, ch with
  | [], [(o, c)] =>
    simp only [noCollapsibleChildren, Bool.and_eq_true] at hch
    simpa [squashCollapse] using hch.1
  | [], [] => simp [squashCollapse, noCollapsible, hch]
  | [], p1 :: p2 :: rest =>
    simpa [squashCollapse, noCollapsible] using hch
  | s :: ss, ch => simpa [squashCollapse, noCollapsible] using hch

mutual
theorem squashNonRoot_noCollapsible (g : UrlSegmentGroup) :
    noCollapsible (squashNonRoot g) = true := by
  cases g with
  | mk segs children =>
    rw [squashNonRoot]
    exact squashCollapse_noCollapsible segs _ (squashChildren_noCollapsible children)
termination_by sizeOf g
decreasing_by simp_wf

theorem squashChildren_noCollapsible (l : List (String × UrlSegmentGroup)) :
    noCollapsibleChildren (squashChildren l) = true := by
  match l with
  | [] => simp [squashChildren, noCollapsibleChildren]
  | (o, c) :: rest =>
    have h1 := squashNonRoot_noCollapsible c
    have h2 := squashChildren_noCollapsible rest
    simp [squashChildren, noCollapsibleChildren, h1, h2]
termination_by sizeOf l
decreasing_by all_goals (simp_wf <;> omega)
end

theorem isSquashedRoot_squash (g : UrlSegmentGroup) :
    isSquashedRoot (squashSegmentGroup g) = true := by
  rw [squashSegmentGroup, isSquashedRoot]
  exact squashChildren_noCollapsible g.children

mutual
theorem squashNonRoot_of_noCollapsible (g : UrlSegmentGroup)
    (h : noCollapsible g = true) : squashNonRoot g = g := by
  match g with
  | .mk segs children =>
    rw [noCollapsible, Bool.and_eq_true] at h
    have hch := squashChildren_of_noCollapsible children h.2
    rw [squashNonRoot, hch]
    match segs, children with
    | [], [(o, c)] => simp at h
    | [], [] => rfl
    | [], p1 :: p2 :: rest => rfl
    | s :: ss, ch => rfl
termination_by sizeOf g
decreasing_by simp_wf

theorem squashChildren_of_noCollapsible (l : List (String × UrlSegmentGroup))
    (h : noCollapsibleChildren l = true) : squashChildren l = l := by
  match l with
  | [] => rfl
  | (o, c) :: rest =>
    rw [noCollapsibleChildren, Bool.and_eq_true] at h
    rw [squashChildren, squashNonRoot_of_noCollapsible c h.1,
      squashChildren_of_noCollapsible rest h.2]
termination_by sizeOf l
decreasing_by all_goals (simp_wf <;> omega)
end

/-- C5: every tree returned by the entry point is squashed — no segment group
other than the true root has an empty segment list together with exactly one
outlet child. -/
theorem returned_tree_is_squashed (root : UrlSegmentGroup) (path : List String)
    (cmds : List RawCmd) (qp : ParamsMap) (frag : Option String) (t : UrlTree)
    (h : createUrlTreeFromSegmentGroup root path cmds qp frag = .ok t) :
    isSquashedRoot t.root = true := by
  unfold createUrlTreeFromSegmentGroup at h
  split at h
  · injection h with h'
    subst h'
    exact isSquashedRoot_squash _
  · split at h
    · exact absurd h (by simp)
    · split at h
      · injection h with h'
        subst h'
        exact isSquashedRoot_squash _
      · split at h
        · exact absurd h (by simp)
        · injection h with h'
          subst h'
          exact isSquashedRoot_squash _

/-- C5 witness: a run whose splitting introduces an intermediate group still
returns a squashed tree. -/
theorem returned_tree_is_squashed_witness :
    isSquashedRoot
        (UrlTree.root ⟨.mk [] [("primary", .mk [⟨"team", []⟩, ⟨"33", []⟩]
          [("primary", .mk [⟨"user", []⟩, ⟨"11", []⟩] [])])], [], none⟩) = true :=
  returned_tree_is_squashed
    (.mk [] [("primary", .mk [⟨"team", []⟩, ⟨"33", []⟩]
      [("primary", .mk [⟨"user", []⟩, ⟨"11", []⟩] []),
       ("right", .mk [⟨"chat", []⟩] [])])])
    ["primary"] [.outletsCmd [("right", .nullV)]] [] none _
    (by simp [createUrlTreeFromSegmentGroup, computeNavigation, computeNavigationCore,
      isRootCommandList, mkNavigation, matrixFirst, isMatrixParams, misplacedOutlets,
      normalizeTailCmd, normOutletVal, Navigation.toRoot,
      findStartingPositionForTargetGroup, createPositionApplyingDoubleDots, groupAt,
      lookupChild, segmentsLengthAt, updateSegmentGroup, updateSegmentGroupF,
      updateSegmentGroupChildrenF, processOutletsF, prefixedWith, prefixedWithGo,
      getOutlets, outletDefined, getSegAt, sliceTo, dropFrom, compareSeg,
      shallowEqualParams, lookupParam, stringifyCmd, createNewSegmentGroup,
      createNewSegmentGroupGo, createNewSegmentChildren, matrixParamsView,
      isCommandWithOutlets, objParamsOf, tree, replaceSegment, squashSegmentGroup,
      squashNonRoot, squashChildren, squashCollapse, UrlSegmentGroup.segments,
      UrlSegmentGroup.children, UrlSegmentGroup.hasChildren, weightGroup,
      weightChildren, weightCmds, weightCmd, weightOutlets, weightVal, primaryOutlet,
      noMatchResult])

/-- C1 (amended): applying an empty command list returns a tree whose root is the
squash of the anchor's root, with the given query parameters and fragment
attached; when the anchor's root is already squashed, the root is therefore
structurally equal to the input root. -/
theorem empty_commands_root_is_squash :
    (∀ (root : UrlSegmentGroup) (path : List String) (qp : ParamsMap)
        (frag : Option String),
        createUrlTreeFromSegmentGroup root path [] qp frag =
          .ok ⟨squashSegmentGroup root, qp, frag⟩) ∧
    (∀ root : UrlSegmentGroup, isSquashedRoot root = true →
        squashSegmentGroup root = root) := by
  constructor
  · intro root path qp frag
    simp [createUrlTreeFromSegmentGroup, tree]
  · intro root h
    cases root with
    | mk segs ch =>
      rw [isSquashedRoot, UrlSegmentGroup.children_mk] at h
      rw [squashSegmentGroup, UrlSegmentGroup.children_mk, UrlSegmentGroup.segments_mk,
        squashChildren_of_noCollapsible ch h]

/-- C1 witness: empty commands on an already-squashed anchor tree return the very
same root. -/
theorem empty_commands_root_is_squash_witness :
    createUrlTreeFromSegmentGroup (.mk [] [("primary", .mk [⟨"a", []⟩] [])])
        ["primary"] [] [] none =
      .ok ⟨.mk [] [("primary", .mk [⟨"a", []⟩] [])], [], none⟩ := by
  have h1 := empty_commands_root_is_squash.1
    (.mk [] [("primary", .mk [⟨"a", []⟩] [])]) ["primary"] [] none
  have h2 := empty_commands_root_is_squash.2
    (.mk [] [("primary", .mk [⟨"a", []⟩] [])])
    (by simp [isSquashedRoot, noCollapsibleChildren, noCollapsible])
  rw [h1, h2]

/-- C1 counterexample: on an anchor whose tree is not squashed, empty commands do
not return a structurally equal root — the non-root empty group with a single
child is collapsed. -/
theorem empty_commands_unsquashed_counterexample :
    createUrlTreeFromSegmentGroup
        (.mk [] [("primary", .mk [] [("primary", .mk [⟨"a", []⟩] [])])])
        [] [] [] none =
      .ok ⟨.mk [] [("primary", .mk [⟨"a", []⟩] [])], [], none⟩ ∧
    UrlSegmentGroup.mk [] [("primary", .mk [⟨"a", []⟩] [])] ≠
      .mk [] [("primary", .mk [] [("primary", .mk [⟨"a", []⟩] [])])] := by
  constructor
  · simp [createUrlTreeFromSegmentGroup, tree, squashSegmentGroup, squashChildren,
      squashNonRoot, squashCollapse]
  · simp

/-- C8 (amended): a normalized command list with an outlets-object command in a
non-last position makes navigation-intent construction raise
`MisplacedOutletsCommand` — unless the navigation is absolute and its first
normalized command is a matrix-parameter object, in which case
`RootSegmentMatrixParams` is raised first; an error from intent construction
propagates out of the entry point, so no tree is returned.  In particular the
commands `["a", {outlets: {x: "y"}}, "b"]` raise `MisplacedOutletsCommand`. -/
theorem misplaced_outlets_error_unless_root_matrix :
    (∀ (abs : Bool) (dd : Nat) (cmds : List RawCmd),
        misplacedOutlets cmds = true → (abs && matrixFirst cmds) = false →
        mkNavigation abs dd cmds = .error .misplacedOutletsCommand) ∧
    (∀ cmds : List RawCmd, isRootCommandList cmds = false →
        computeNavigation cmds =
          mkNavigation (computeNavigationCore cmds).1
            (computeNavigationCore cmds).2.1 (computeNavigationCore cmds).2.2) ∧
    (∀ (root : UrlSegmentGroup) (path : List String) (cmds : List RawCmd)
        (qp : ParamsMap) (frag : Option String) (e : RtError),
        cmds ≠ [] → computeNavigation cmds = .error e →
        createUrlTreeFromSegmentGroup root path cmds qp frag = .error e) ∧
    computeNavigation [.str "a", .outletsCmd [("x", .listV [.str "y"])], .str "b"] =
      .error .misplacedOutletsCommand := by
  refine ⟨?_, ?_, ?_, ?_⟩
  · intro abs dd cmds h1 h2
    simp [mkNavigation, h1, h2]
  · intro cmds h
    simp [computeNavigation, h]
  · intro root path cmds qp frag e hne hnav
    have hempty : cmds.isEmpty = false := by
      cases cmds
      · exact absurd rfl hne
      · rfl
    unfold createUrlTreeFromSegmentGroup
    rw [hempty, hnav]
    simp
  · simp [computeNavigation, computeNavigationCore, isRootCommandList, jsSplitSlash,
      classifyParts, normalizeTailCmd, normOutletVal, mkNavigation, matrixFirst,
      isMatrixParams, misplacedOutlets, isCommandWithOutlets]

/-- C8 witness: the three general conjuncts instantiated — the misplaced-outlets
command list from the claim raises the error at the entry point and returns no
tree. -/
theorem misplaced_outlets_error_unless_root_matrix_witness :
    createUrlTreeFromSegmentGroup (.mk [] []) []
        [.str "a", .outletsCmd [("x", .listV [.str "y"])], .str "b"] [] none =
      .error .misplacedOutletsCommand :=
  misplaced_outlets_error_unless_root_matrix.2.2.1 _ _ _ _ _ _ (by simp)
    misplaced_outlets_error_unless_root_matrix.2.2.2

/-- C8 counterexample: a command list whose normalization contains a misplaced
outlets command but whose navigation is absolute with a matrix-parameter first
command raises `RootSegmentMatrixParams`, not `MisplacedOutletsCommand`. -/
theorem misplaced_outlets_precedence_counterexample :
    computeNavigation
        [.str "/", .matrix [("a", "1")], .outletsCmd [("x", .listV [.str "y"])],
         .str "b"] =
      .error .rootSegmentMatrixParams ∧
    misplacedOutlets
        (computeNavigationCore
          [.str "/", .matrix [("a", "1")], .outletsCmd [("x", .listV [.str "y"])],
           .str "b"]).2.2 = true ∧
    RtError.rootSegmentMatrixParams ≠ RtError.misplacedOutletsCommand := by
  refine ⟨?_, ?_, by decide⟩
  · simp [computeNavigation, computeNavigationCore, isRootCommandList, jsSplitSlash,
      classifyParts, normalizeTailCmd, normOutletVal, mkNavigation, matrixFirst,
      isMatrixParams, misplacedOutlets, isCommandWithOutlets]
  · simp [computeNavigationCore, isRootCommandList, jsSplitSlash, classifyParts,
      normalizeTailCmd, normOutletVal, misplacedOutlets, isCommandWithOutlets]

/-- The sub-token classification of the first string command, in closed form:
absolute iff the sub-token at position 0 is the empty string, the double-dot
count is the number of `".."` sub-tokens, and the pushed commands are exactly the
non-empty sub-tokens other than `".."` and other than a `"."` at position 0, in
order. -/
theorem classifyParts_spec (parts : List String) (i : Nat) :
    classifyParts parts i =
      (decide (i = 0) && parts.head? == some "",
       parts.countP (fun p => p == ".."),
       ((parts.enumFrom i).filter
         (fun it => !(it.2 == "") && !(it.2 == "..") &&
           !(decide (it.1 = 0) && it.2 == "."))).map
         (fun it => RawCmd.str it.2)) := by
  induction parts generalizing i with
  | nil => simp [classifyParts]
  | cons p rest ih =>
    rw [classifyParts, ih (i + 1)]
    by_cases h0 : i = 0
    · subst h0
      by_cases hdot : p = "."
      · subst hdot
        simp [List.enumFrom, List.countP_cons]
      · by_cases hempty : p = ""
        · subst hempty
          simp [List.enumFrom, List.countP_cons]
        · by_cases hdd : p = ".."
          · subst hdd
            simp [List.enumFrom, List.countP_cons]
          · simp [List.enumFrom, List.countP_cons, hdot, hempty, hdd]
    · by_cases hempty : p = ""
      · subst hempty
        simp [List.enumFrom, List.countP_cons, h0]
      · by_cases hdd : p = ".."
        · subst hdd
          simp [List.enumFrom, List.countP_cons, h0]
        · simp [List.enumFrom, List.countP_cons, h0, hempty, hdd]

/-- C6 (amended): only the first command, when a plain string, is split on "/";
its sub-tokens are classified exactly as: empty string at position 0 sets
`isAbsolute`, `"."` at position 0 is ignored, `".."` increments the double-dot
count, and any other non-empty sub-token is appended; commands after the first
are passed through, except that an outlets-object has string outlet values split
into command lists and a segmentPath-object with a non-empty path is replaced by
its path string (an empty segmentPath object is passed through unchanged). -/
theorem computeNavigation_classification :
    (∀ (s : String) (rest : List RawCmd),
        isRootCommandList (.str s :: rest) = false →
        computeNavigation (.str s :: rest) =
          mkNavigation (classifyParts (jsSplitSlash s) 0).1
            (classifyParts (jsSplitSlash s) 0).2.1
            ((classifyParts (jsSplitSlash s) 0).2.2 ++ rest.map normalizeTailCmd)) ∧
    (∀ (parts : List String) (i : Nat),
        classifyParts parts i =
          (decide (i = 0) && parts.head? == some "",
           parts.countP (fun p => p == ".."),
           ((parts.enumFrom i).filter
             (fun it => !(it.2 == "") && !(it.2 == "..") &&
               !(decide (it.1 = 0) && it.2 == "."))).map
             (fun it => RawCmd.str it.2))) ∧
    (∀ p : String, p ≠ "" → normalizeTailCmd (.segPath p) = .str p) ∧
    (normalizeTailCmd (.segPath "") = .segPath "") ∧
    (∀ m, normalizeTailCmd (.outletsCmd m) =
        .outletsCmd (m.map (fun ov => (ov.1, normOutletVal ov.2)))) ∧
    (∀ s' : String, normOutletVal (.strV s') =
        .listV ((jsSplitSlash s').map RawCmd.str)) ∧
    (∀ s' : String, normalizeTailCmd (.str s') = .str s') ∧
    (∀ ps : ParamsMap, normalizeTailCmd (.matrix ps) = .matrix ps) := by
  refine ⟨?_, classifyParts_spec, ?_, rfl, fun _ => rfl, fun _ => rfl,
    fun _ => rfl, fun _ => rfl⟩
  · intro s rest h
    simp [computeNavigation, computeNavigationCore, h]
  · intro p hp
    simp [normalizeTailCmd, hp]

/-- C6 witness: the first string command is split and classified, and a non-empty
segmentPath object is replaced by its path string. -/
theorem computeNavigation_classification_witness :
    (computeNavigation [.str "x"] =
      mkNavigation (classifyParts (jsSplitSlash "x") 0).1
        (classifyParts (jsSplitSlash "x") 0).2.1
        ((classifyParts (jsSplitSlash "x") 0).2.2 ++
          ([] : List RawCmd).map normalizeTailCmd)) ∧
    normalizeTailCmd (.segPath "p") = .str "p" :=
  ⟨computeNavigation_classification.1 "x" [] (by decide),
   computeNavigation_classification.2.2.1 "p" (by decide)⟩

/-- C6 counterexample: an `{segmentPath: ""}` object after the first command is
not replaced by its (empty) path string — the falsy-path object is passed
through unchanged. -/
theorem segmentPath_empty_passthrough_counterexample :
    computeNavigation [.str "a", .segPath ""] =
      .ok ⟨false, 0, [.str "a", .segPath ""]⟩ ∧
    RawCmd.segPath "" ≠ .str "" := by
  constructor
  · simp [computeNavigation, computeNavigationCore, isRootCommandList, jsSplitSlash,
      classifyParts, normalizeTailCmd, mkNavigation, matrixFirst, isMatrixParams,
      misplacedOutlets, isCommandWithOutlets]
  · intro h
    exact RawCmd.noConfusion h

/-- C4: the prefix-matching walk — an outlets-object command immediately returns a
successful partial match at the current indices; running out of commands while
segments remain returns `match=false`; a failed stringified-path or shallow
parameter-map comparison returns `match=false` (both when the following command
is a plain object without outlets, taken as the segment's expected parameters,
and when it is not); and a successful two-token comparison consumes the path
command together with its parameter object, advancing the command index by two.
`prefixedWith` itself starts the walk at `(startIndex, 0)`. -/
theorem prefixedWith_matching_rules :
    (∀ (segs : List UrlSegment) (cmds : List RawCmd) (pi : Int) (ci : Nat) m,
        cmds[ci]? = some (.outletsCmd m) →
        prefixedWithGo segs cmds pi ci = ⟨true, pi, ci⟩) ∧
    (∀ (segs : List UrlSegment) (cmds : List RawCmd) (pi : Int) (ci : Nat),
        pi < (segs.length : Int) → ci ≥ cmds.length →
        prefixedWithGo segs cmds pi ci = noMatchResult) ∧
    (∀ (segs : List UrlSegment) (cmds : List RawCmd) (pi : Int) (ci : Nat) c,
        pi < (segs.length : Int) → cmds[ci]? = some c →
        isCommandWithOutlets c = false →
        (objParamsOf (if ci < cmds.length - 1 then cmds[ci + 1]? else none) = none ∨
          stringifyCmd c = "") →
        compareSeg (stringifyCmd c) [] (getSegAt segs pi) = false →
        prefixedWithGo segs cmds pi ci = noMatchResult) ∧
    (∀ (segs : List UrlSegment) (cmds : List RawCmd) (pi : Int) (ci : Nat) c ps,
        pi < (segs.length : Int) → cmds[ci]? = some c →
        isCommandWithOutlets c = false →
        objParamsOf (if ci < cmds.length - 1 then cmds[ci + 1]? else none) =
          some ps →
        stringifyCmd c ≠ "" →
        compareSeg (stringifyCmd c) ps (getSegAt segs pi) = false →
        prefixedWithGo segs cmds pi ci = noMatchResult) ∧
    (∀ (segs : List UrlSegment) (cmds : List RawCmd) (pi : Int) (ci : Nat) c ps,
        pi < (segs.length : Int) → cmds[ci]? = some c →
        isCommandWithOutlets c = false →
        objParamsOf (if ci < cmds.length - 1 then cmds[ci + 1]? else none) =
          some ps →
        stringifyCmd c ≠ "" →
        compareSeg (stringifyCmd c) ps (getSegAt segs pi) = true →
        prefixedWithGo segs cmds pi ci = prefixedWithGo segs cmds (pi + 1) (ci + 2)) ∧
    (∀ (sg : UrlSegmentGroup) (startIndex : Int) (cmds : List RawCmd),
        prefixedWith sg startIndex cmds =
          prefixedWithGo sg.segments cmds startIndex 0) := by
  refine ⟨?_, ?_, ?_, ?_, ?_, fun _ _ _ => rfl⟩
  · intro segs cmds pi ci m hget
    have hlen : ci < cmds.length := by
      have := List.getElem?_eq_some_iff.mp hget
      exact this.1
    rw [prefixedWithGo]
    by_cases hpi : pi < (segs.length : Int)
    · rw [if_pos hpi, if_neg (by omega)]
      simp only [List.get?_eq_getElem?]
      simp [hget, isCommandWithOutlets]
    · rw [if_neg hpi]
  · intro segs cmds pi ci hpi hci
    rw [prefixedWithGo, if_pos hpi, if_pos hci]
  · intro segs cmds pi ci c hpi hget hout hsingle hcmp
    have hlen : ci < cmds.length := (List.getElem?_eq_some_iff.mp hget).1
    rw [prefixedWithGo, if_pos hpi, if_neg (by omega)]
    simp only [List.get?_eq_getElem?, hget, Option.getD_some, hout,
      Bool.false_eq_true, if_false]
    rcases hsingle with hnone | hempty
    · rw [hnone]
      simp [hcmp]
    · rw [hempty] at hcmp ⊢
      cases hobj : objParamsOf (if ci < cmds.length - 1 then cmds[ci + 1]? else none) with
      | none => simp [hcmp]
      | some ps => simp [hcmp]
  · intro segs cmds pi ci c ps hpi hget hout hnext hcurr hcmp
    have hlen : ci < cmds.length := (List.getElem?_eq_some_iff.mp hget).1
    rw [prefixedWithGo, if_pos hpi, if_neg (by omega)]
    simp only [List.get?_eq_getElem?, hget, Option.getD_some, hout,
      Bool.false_eq_true, if_false]
    rw [hnext]
    simp [hcurr, hcmp]
  · intro segs cmds pi ci c ps hpi hget hout hnext hcurr hcmp
    have hlen : ci < cmds.length := (List.getElem?_eq_some_iff.mp hget).1
    conv_lhs => rw [prefixedWithGo]
    rw [if_pos hpi, if_neg (by omega)]
    simp only [List.get?_eq_getElem?, hget, Option.getD_some, hout,
      Bool.false_eq_true, if_false]
    rw [hnext]
    simp [hcurr, hcmp]

/-- C4 witness: the general rules instantiated — an outlets command stops the walk
as a partial match, and an exhausted command list with segments remaining is a
failure. -/
theorem prefixedWith_matching_rules_witness :
    prefixedWithGo [⟨"a", []⟩] [.outletsCmd []] 0 0 = ⟨true, 0, 0⟩ ∧
    prefixedWithGo [⟨"a", []⟩] [] 0 0 = noMatchResult :=
  ⟨prefixedWith_matching_rules.1 [⟨"a", []⟩] [.outletsCmd []] 0 0 [] rfl,
   prefixedWith_matching_rules.2.1 [⟨"a", []⟩] [] 0 0 (by decide) (by decide)⟩
